import Mathlib

/-!
Verification of the icon-loader core (a Rust crate resolving themed icon
names to on-disk files): the numeric best-fit size matcher, theme-chain
building across search roots, the inheritance-graph traversal, and the
icon/theme caches.  All definitions are shallow embeddings of the Rust
sources; u16 arithmetic is modelled as `Nat` with explicit wrap-around
modulo 2^16 where the source performs u16 `+`, `-`, `*`.
-/

namespace IconLoaderV

/-- File types an icon can have (`IconFileType` in `icon_file.rs`). -/
inductive IconFileType where
  | PNG
  | SVG
  | XPM
deriving DecidableEq, Repr

/-- The fixed priority order `IconFileType::types()` used for candidate collection. -/
def IconFileType.types : List IconFileType := [IconFileType.PNG, IconFileType.SVG, IconFileType.XPM]

/-- Size type of an icon directory (`IconSizeType` in `icon_dir.rs`). -/
inductive IconSizeType where
  | Fixed
  | Scalable
  | Threshold
deriving DecidableEq, Repr

/-- Metadata of one size-bucket directory (`IconDir`).  Numeric fields are u16
    in the source; they are modelled as `Nat` holding values below 2^16. -/
structure IconDir where
  path : String
  size : Nat
  scale : Nat
  context : Option String
  sizeType : IconSizeType
  maxSize : Option Nat
  minSize : Option Nat
  threshold : Option Nat
deriving DecidableEq, Repr

/-- Getter `IconDir::threshold()`: the stored value or the default 2. -/
def IconDir.thresholdGet (d : IconDir) : Nat := d.threshold.getD 2

/-- Getter `IconDir::max_size()`: the stored value or the directory size. -/
def IconDir.maxSizeGet (d : IconDir) : Nat := d.maxSize.getD d.size

/-- Getter `IconDir::min_size()`: the stored value or the directory size. -/
def IconDir.minSizeGet (d : IconDir) : Nat := d.minSize.getD d.size

/-- `IconDir::is_valid()`: a directory is valid iff its size is nonzero. -/
def IconDir.is_valid (d : IconDir) : Bool := d.size != 0

/-- One icon file on disk (`IconFile`): its directory metadata, its path
    (modelled as the path components `content_dir / dir_path / icon_name`,
    with the extension determined by `icon_type`), and its file type. -/
structure IconFile where
  dir_info : IconDir
  path : List String
  icon_type : IconFileType
deriving DecidableEq, Repr

/-- u16 wrapping addition, as performed by `+` on u16 in the source. -/
def wrapAdd (a b : Nat) : Nat := (a + b) % 65536

/-- u16 wrapping subtraction, as performed by `-` on u16 in the source. -/
def wrapSub (a b : Nat) : Nat := (a % 65536 + (65536 - b % 65536)) % 65536

/-- u16 wrapping multiplication, as performed by `*` on u16 in the source. -/
def wrapMul (a b : Nat) : Nat := (a * b) % 65536

/-- Rust `Iterator::min_by_key`: the first element with minimal key. -/
def min_by_key (key : α → Nat) (l : List α) : Option α :=
  l.foldl (fun acc x =>
    match acc with
    | none => some x
    | some y => if key x < key y then some x else some y) none

/-- Rust `Iterator::max_by_key`: the last element with maximal key. -/
def max_by_key (key : α → Nat) (l : List α) : Option α :=
  l.foldl (fun acc x =>
    match acc with
    | none => some x
    | some y => if key y ≤ key x then some x else some y) none

/-- The themed-icon aggregate (`Icon`): icon name, theme name where found,
    and the candidate files. -/
structure Icon where
  icon_name : String
  theme_name : String
  files : List IconFile
deriving DecidableEq, Repr

/-- `Icon::new`: construction fails when the icon name, theme name or file
    list is empty. -/
def Icon.new (icon_name theme_name : String) (files : List IconFile) : Option Icon :=
  if icon_name = "" ∨ theme_name = "" ∨ files = [] then none
  else some ⟨icon_name, theme_name, files⟩

/-- The threshold-window test of `file_for_size_filtered`:
    `size >= dir.size() - dir.threshold() && size <= dir.size() + dir.threshold()`,
    with both bounds computed in u16 wrapping arithmetic as in the source. -/
def thresholdMatches (size : Nat) (f : IconFile) : Bool :=
  decide (wrapSub f.dir_info.size f.dir_info.thresholdGet ≤ size) &&
  decide (size ≤ wrapAdd f.dir_info.size f.dir_info.thresholdGet)

/-- `Icon::file_for_size_filtered` (icon.rs): filter the candidates, then
    first rule that applies wins: exact directory-size match; first
    threshold-window match among `Threshold` directories; smallest
    directory size strictly above the request; largest available. -/
def Icon.file_for_size_filtered (icon : Icon) (size : Nat) (flt : IconFile → Bool) :
    Option IconFile :=
  let files := icon.files.filter flt
  match files.find? (fun f => f.dir_info.size == size) with
  | some f => some f
  | none =>
    match (files.filter (fun f => f.dir_info.sizeType == IconSizeType.Threshold)).find?
        (thresholdMatches size) with
    | some f => some f
    | none =>
      match min_by_key (fun f => f.dir_info.size)
          (files.filter (fun f => decide (size < f.dir_info.size))) with
      | some f => some f
      | none => max_by_key (fun f => f.dir_info.size) files

/-- `Icon::file_for_size_scaled`: try scale-restricted resolution, then
    scale-1 resolution at `size * scale` (u16 wrapping product), then the
    unrestricted resolution.  The final `.unwrap()` of the source is
    modelled by returning the `Option` itself; the safety claim proves it
    is always `some` for a constructed `Icon`. -/
def Icon.file_for_size_scaled (icon : Icon) (size scale : Nat) : Option IconFile :=
  match icon.file_for_size_filtered size (fun f => f.dir_info.scale == scale) with
  | some f => some f
  | none =>
    match icon.file_for_size_filtered (wrapMul size scale) (fun f => f.dir_info.scale == 1) with
    | some f => some f
    | none => icon.file_for_size_filtered size (fun _ => true)

/-- `Icon::file_for_size`: scaled lookup at scale 1. -/
def Icon.file_for_size (icon : Icon) (size : Nat) : Option IconFile :=
  icon.file_for_size_scaled size 1

/-- Folding the `min_by_key` step: the result is an element of the list or
    the initial accumulator, has minimal key among the list, and key at most
    the accumulator's. -/
theorem min_by_key_foldl_spec (key : α → Nat) :
    ∀ (l : List α) (acc : Option α) (f : α),
      l.foldl (fun acc x =>
        match acc with
        | none => some x
        | some y => if key x < key y then some x else some y) acc = some f →
      (f ∈ l ∨ acc = some f) ∧ (∀ g ∈ l, key f ≤ key g) ∧
        (∀ a, acc = some a → key f ≤ key a) := by
  intro l
  induction l with
  | nil =>
    intro acc f h
    simp only [List.foldl_nil] at h
    refine ⟨Or.inr h, by simp, ?_⟩
    intro a ha
    rw [h] at ha
    cases ha
    exact le_refl _
  | cons x xs ih =>
    intro acc f h
    simp only [List.foldl_cons] at h
    rcases ih _ f h with ⟨hmem, hmin, hacc⟩
    cases acc with
    | none =>
      have hx : key f ≤ key x := hacc x rfl
      refine ⟨?_, ?_, ?_⟩
      · rcases hmem with hm | hm
        · exact Or.inl (List.mem_cons_of_mem _ hm)
        · cases hm; exact Or.inl (List.mem_cons_self _ _)
      · intro g hg
        rcases List.mem_cons.mp hg with hg | hg
        · exact hg ▸ hx
        · exact hmin g hg
      · intro a ha
        cases ha
    | some y =>
      by_cases hxy : key x < key y
      · simp only [if_pos hxy] at hmem hacc
        have hx : key f ≤ key x := hacc x rfl
        refine ⟨?_, ?_, ?_⟩
        · rcases hmem with hm | hm
          · exact Or.inl (List.mem_cons_of_mem _ hm)
          · cases hm; exact Or.inl (List.mem_cons_self _ _)
        · intro g hg
          rcases List.mem_cons.mp hg with hg | hg
          · exact hg ▸ hx
          · exact hmin g hg
        · intro a ha
          cases ha
          exact le_trans hx (le_of_lt hxy)
      · simp only [if_neg hxy] at hmem hacc
        have hy : key f ≤ key y := hacc y rfl
        refine ⟨?_, ?_, ?_⟩
        · rcases hmem with hm | hm
          · exact Or.inl (List.mem_cons_of_mem _ hm)
          · cases hm; exact Or.inr rfl
        · intro g hg
          rcases List.mem_cons.mp hg with hg | hg
          · exact hg ▸ le_trans hy (le_of_not_lt hxy)
          · exact hmin g hg
        · intro a ha
          cases ha
          exact hy

/-- `min_by_key` returns a list element of minimal key. -/
theorem min_by_key_spec (key : α → Nat) (l : List α) (f : α)
    (h : min_by_key key l = some f) : f ∈ l ∧ ∀ g ∈ l, key f ≤ key g := by
  rcases min_by_key_foldl_spec key l none f h with ⟨hmem, hmin, _⟩
  rcases hmem with hm | hm
  · exact ⟨hm, hmin⟩
  · cases hm

/-- Folding the `max_by_key` step: the result is an element of the list or
    the initial accumulator, has maximal key among the list, and key at least
    the accumulator's. -/
theorem max_by_key_foldl_spec (key : α → Nat) :
    ∀ (l : List α) (acc : Option α) (f : α),
      l.foldl (fun acc x =>
        match acc with
        | none => some x
        | some y => if key y ≤ key x then some x else some y) acc = some f →
      (f ∈ l ∨ acc = some f) ∧ (∀ g ∈ l, key g ≤ key f) ∧
        (∀ a, acc = some a → key a ≤ key f) := by
  intro l
  induction l with
  | nil =>
    intro acc f h
    simp only [List.foldl_nil] at h
    refine ⟨Or.inr h, by simp, ?_⟩
    intro a ha
    rw [h] at ha
    cases ha
    exact le_refl _
  | cons x xs ih =>
    intro acc f h
    simp only [List.foldl_cons] at h
    rcases ih _ f h with ⟨hmem, hmax, hacc⟩
    cases acc with
    | none =>
      have hx : key x ≤ key f := hacc x rfl
      refine ⟨?_, ?_, ?_⟩
      · rcases hmem with hm | hm
        · exact Or.inl (List.mem_cons_of_mem _ hm)
        · cases hm; exact Or.inl (List.mem_cons_self _ _)
      · intro g hg
        rcases List.mem_cons.mp hg with hg | hg
        · exact hg ▸ hx
        · exact hmax g hg
      · intro a ha
        cases ha
    | some y =>
      by_cases hxy : key y ≤ key x
      · simp only [if_pos hxy] at hmem hacc
        have hx : key x ≤ key f := hacc x rfl
        refine ⟨?_, ?_, ?_⟩
        · rcases hmem with hm | hm
          · exact Or.inl (List.mem_cons_of_mem _ hm)
          · cases hm; exact Or.inl (List.mem_cons_self _ _)
        · intro g hg
          rcases List.mem_cons.mp hg with hg | hg
          · exact hg ▸ hx
          · exact hmax g hg
        · intro a ha
          cases ha
          exact le_trans hxy hx
      · simp only [if_neg hxy] at hmem hacc
        have hy : key y ≤ key f := hacc y rfl
        refine ⟨?_, ?_, ?_⟩
        · rcases hmem with hm | hm
          · exact Or.inl (List.mem_cons_of_mem _ hm)
          · cases hm; exact Or.inr rfl
        · intro g hg
          rcases List.mem_cons.mp hg with hg | hg
          · exact hg ▸ le_trans (le_of_not_le hxy) hy
          · exact hmax g hg
        · intro a ha
          cases ha
          exact hy

/-- `max_by_key` returns a list element of maximal key. -/
theorem max_by_key_spec (key : α → Nat) (l : List α) (f : α)
    (h : max_by_key key l = some f) : f ∈ l ∧ ∀ g ∈ l, key g ≤ key f := by
  rcases max_by_key_foldl_spec key l none f h with ⟨hmem, hmax, _⟩
  rcases hmem with hm | hm
  · exact ⟨hm, hmax⟩
  · cases hm

/-- A fold of the `max_by_key` step starting from a `some` accumulator stays `some`. -/
theorem max_by_key_foldl_isSome (key : α → Nat) :
    ∀ (l : List α) (y : α),
      (l.foldl (fun acc x =>
        match acc with
        | none => some x
        | some y => if key y ≤ key x then some x else some y) (some y)).isSome = true := by
  intro l
  induction l with
  | nil => intro y; rfl
  | cons x xs ih =>
    intro y
    simp only [List.foldl_cons]
    by_cases hxy : key y ≤ key x
    · simpa [hxy] using ih x
    · simpa [hxy] using ih y

/-- `max_by_key` of a nonempty list is `some`. -/
theorem max_by_key_isSome (key : α → Nat) (l : List α) (hne : l ≠ []) :
    (max_by_key key l).isSome = true := by
  cases l with
  | nil => exact absurd rfl hne
  | cons x xs =>
    simp only [max_by_key, List.foldl_cons]
    exact max_by_key_foldl_isSome key xs x

/-- A fold of the `min_by_key` step starting from a `some` accumulator stays `some`. -/
theorem min_by_key_foldl_isSome (key : α → Nat) :
    ∀ (l : List α) (y : α),
      (l.foldl (fun acc x =>
        match acc with
        | none => some x
        | some y => if key x < key y then some x else some y) (some y)).isSome = true := by
  intro l
  induction l with
  | nil => intro y; rfl
  | cons x xs ih =>
    intro y
    simp only [List.foldl_cons]
    by_cases hxy : key x < key y
    · simpa [hxy] using ih x
    · simpa [hxy] using ih y

/-- `min_by_key` of a nonempty list is `some`. -/
theorem min_by_key_isSome (key : α → Nat) (l : List α) (hne : l ≠ []) :
    (min_by_key key l).isSome = true := by
  cases l with
  | nil => exact absurd rfl hne
  | cons x xs =>
    simp only [min_by_key, List.foldl_cons]
    exact min_by_key_foldl_isSome key xs x

/-- The size matcher succeeds exactly when some candidate passes the filter. -/
theorem file_for_size_filtered_isSome (icon : Icon) (size : Nat) (flt : IconFile → Bool) :
    (icon.file_for_size_filtered size flt).isSome = true ↔ icon.files.filter flt ≠ [] := by
  constructor
  · intro h hempty
    simp only [Icon.file_for_size_filtered, hempty] at h
    simp [min_by_key, max_by_key] at h
  · intro hne
    simp only [Icon.file_for_size_filtered]
    cases h1 : (icon.files.filter flt).find? (fun f => f.dir_info.size == size) with
    | some f => simp [h1]
    | none =>
      cases h2 : ((icon.files.filter flt).filter
          (fun f => f.dir_info.sizeType == IconSizeType.Threshold)).find?
          (thresholdMatches size) with
      | some f => simp [h1, h2]
      | none =>
        cases h3 : min_by_key (fun f => f.dir_info.size)
            ((icon.files.filter flt).filter (fun f => decide (size < f.dir_info.size))) with
        | some f => simp [h1, h2, h3]
        | none =>
          simp only [h1, h2, h3]
          exact max_by_key_isSome _ _ hne

/-- A returned file is one of the filtered candidates. -/
theorem file_for_size_filtered_mem (icon : Icon) (size : Nat) (flt : IconFile → Bool)
    (f : IconFile) (h : icon.file_for_size_filtered size flt = some f) :
    f ∈ icon.files.filter flt := by
  simp only [Icon.file_for_size_filtered] at h
  cases h1 : (icon.files.filter flt).find? (fun f => f.dir_info.size == size) with
  | some g =>
    simp only [h1] at h
    cases h
    exact List.mem_of_find?_eq_some h1
  | none =>
    simp only [h1] at h
    cases h2 : ((icon.files.filter flt).filter
        (fun f => f.dir_info.sizeType == IconSizeType.Threshold)).find?
        (thresholdMatches size) with
    | some g =>
      simp only [h2] at h
      cases h
      exact (List.mem_filter.mp (List.mem_of_find?_eq_some h2)).1
    | none =>
      simp only [h2] at h
      cases h3 : min_by_key (fun f => f.dir_info.size)
          ((icon.files.filter flt).filter (fun f => decide (size < f.dir_info.size))) with
      | some g =>
        simp only [h3] at h
        cases h
        exact (List.mem_filter.mp (min_by_key_spec _ _ _ h3).1).1
      | none =>
        simp only [h3] at h
        exact (max_by_key_spec _ _ _ h).1

/-- C1: in the size-resolution procedure, for every non-empty filtered
    candidate list: if some candidate's directory size equals the requested
    size, a candidate with that exact size is returned; otherwise, when the
    threshold rule does not apply either, the candidate with the smallest
    directory size strictly greater than the requested size is returned;
    and if no candidate is strictly larger, the candidate with the largest
    directory size is returned. -/
theorem c1_size_resolution (icon : Icon) (size : Nat) (flt : IconFile → Bool)
    (hne : icon.files.filter flt ≠ []) :
    ((∃ f ∈ icon.files.filter flt, f.dir_info.size = size) →
      ∃ f, icon.file_for_size_filtered size flt = some f ∧ f.dir_info.size = size)
    ∧ ((∀ f ∈ icon.files.filter flt, f.dir_info.size ≠ size) →
      (∀ f ∈ icon.files.filter flt, f.dir_info.sizeType = IconSizeType.Threshold →
        thresholdMatches size f = false) →
      ((∃ f ∈ icon.files.filter flt, size < f.dir_info.size) →
        ∃ f, icon.file_for_size_filtered size flt = some f ∧ f ∈ icon.files.filter flt ∧
          size < f.dir_info.size ∧
          ∀ g ∈ icon.files.filter flt, size < g.dir_info.size →
            f.dir_info.size ≤ g.dir_info.size)
      ∧ ((∀ f ∈ icon.files.filter flt, ¬ size < f.dir_info.size) →
        ∃ f, icon.file_for_size_filtered size flt = some f ∧ f ∈ icon.files.filter flt ∧
          ∀ g ∈ icon.files.filter flt, g.dir_info.size ≤ f.dir_info.size)) := by
  constructor
  · rintro ⟨f, hf, hsize⟩
    have hsomef : ((icon.files.filter flt).find? (fun f => f.dir_info.size == size)).isSome := by
      rw [List.find?_isSome]
      exact ⟨f, hf, by simpa using hsize⟩
    rcases Option.isSome_iff_exists.mp hsomef with ⟨g, hg⟩
    refine ⟨g, ?_, ?_⟩
    · simp only [Icon.file_for_size_filtered, hg]
    · simpa using List.find?_some hg
  · intro hnoexact hnothresh
    have h1 : (icon.files.filter flt).find? (fun f => f.dir_info.size == size) = none := by
      rw [List.find?_eq_none]
      intro x hx
      simpa using hnoexact x hx
    have h2 : ((icon.files.filter flt).filter
        (fun f => f.dir_info.sizeType == IconSizeType.Threshold)).find?
        (thresholdMatches size) = none := by
      rw [List.find?_eq_none]
      intro x hx
      rcases List.mem_filter.mp hx with ⟨hxmem, hxt⟩
      have := hnothresh x hxmem (by simpa using hxt)
      simp [this]
    constructor
    · rintro ⟨f, hf, hlt⟩
      have hbig : f ∈ (icon.files.filter flt).filter
          (fun f => decide (size < f.dir_info.size)) :=
        List.mem_filter.mpr ⟨hf, by simpa using hlt⟩
      have hbigne : (icon.files.filter flt).filter
          (fun f => decide (size < f.dir_info.size)) ≠ [] :=
        List.ne_nil_of_mem hbig
      rcases Option.isSome_iff_exists.mp (min_by_key_isSome
          (fun f : IconFile => f.dir_info.size) _ hbigne) with ⟨g, hg⟩
      rcases min_by_key_spec _ _ _ hg with ⟨hgmem, hgmin⟩
      rcases List.mem_filter.mp hgmem with ⟨hgfs, hglt⟩
      refine ⟨g, ?_, hgfs, by simpa using hglt, ?_⟩
      · simp only [Icon.file_for_size_filtered, h1, h2, hg]
      · intro h hmem hlt2
        exact hgmin h (List.mem_filter.mpr ⟨hmem, by simpa using hlt2⟩)
    · intro hnobig
      have h3 : (icon.files.filter flt).filter
          (fun f => decide (size < f.dir_info.size)) = [] := by
        rw [List.filter_eq_nil_iff]
        intro x hx
        simpa using hnobig x hx
      rcases Option.isSome_iff_exists.mp (max_by_key_isSome
          (fun f : IconFile => f.dir_info.size) _ hne) with ⟨g, hg⟩
      rcases max_by_key_spec _ _ _ hg with ⟨hgmem, hgmax⟩
      refine ⟨g, ?_, hgmem, hgmax⟩
      simp only [Icon.file_for_size_filtered, h1, h2, h3, min_by_key, List.foldl_nil, hg]

/-- Inverting `Icon::new`: a constructed icon carries exactly the given
    files, and all three inputs were non-empty. -/
theorem Icon.new_some (n t : String) (fs : List IconFile) (icon : Icon)
    (h : Icon.new n t fs = some icon) :
    icon.icon_name = n ∧ icon.theme_name = t ∧ icon.files = fs ∧
      n ≠ "" ∧ t ≠ "" ∧ fs ≠ [] := by
  unfold Icon.new at h
  by_cases hc : n = "" ∨ t = "" ∨ fs = []
  · rw [if_pos hc] at h
    cases h
  · rw [if_neg hc] at h
    cases h
    push_neg at hc
    exact ⟨rfl, rfl, rfl, hc.1, hc.2.1, hc.2.2⟩

/-- Splitting a successful `find?`: the found element satisfies the
    predicate and everything before it fails it. -/
theorem find?_eq_some_split (p : α → Bool) :
    ∀ (l : List α) (a : α), l.find? p = some a →
      p a = true ∧ ∃ l1 l2, l = l1 ++ a :: l2 ∧ ∀ x ∈ l1, p x = false := by
  intro l
  induction l with
  | nil => intro a h; cases h
  | cons x xs ih =>
    intro a h
    by_cases hx : p x = true
    · rw [List.find?_cons_of_pos _ hx] at h
      cases h
      exact ⟨hx, [], xs, rfl, by simp⟩
    · have hx' : p x = false := Bool.eq_false_iff.mpr hx
      rw [List.find?_cons_of_neg _ hx] at h
      rcases ih a h with ⟨hpa, l1, l2, hsplit, hfail⟩
      refine ⟨hpa, x :: l1, l2, by simp [hsplit], ?_⟩
      intro y hy
      rcases List.mem_cons.mp hy with hy | hy
      · exact hy ▸ hx'
      · exact hfail y hy

/-- Sample directory of a given size and type, scale 1, all other fields
    defaulted as the parser would leave them. -/
def sampleDir (sz : Nat) (ty : IconSizeType) : IconDir :=
  ⟨"p", sz, 1, none, ty, none, none, none⟩

/-- Sample file living in a `sampleDir`. -/
def sampleFile (sz : Nat) (ty : IconSizeType) : IconFile :=
  ⟨sampleDir sz ty, [], IconFileType.PNG⟩

/-- C1 witness data: fixed-size directories 16, 32, 48 at scale 1. -/
def iconC1 : Icon :=
  ⟨"i", "t", [sampleFile 16 IconSizeType.Fixed, sampleFile 32 IconSizeType.Fixed,
    sampleFile 48 IconSizeType.Fixed]⟩

/-- Witness for C1: requesting size 32 among sizes 16/32/48 returns the
    exact size-32 candidate. -/
theorem c1_size_resolution_witness :
    (iconC1.files.filter (fun _ => true) ≠ []) ∧
    (∃ f, iconC1.file_for_size_filtered 32 (fun _ => true) = some f ∧
      f.dir_info.size = 32) :=
  ⟨by decide, (c1_size_resolution iconC1 32 (fun _ => true) (by decide)).1 (by decide)⟩

/-- C4: for every constructed icon (construction guarantees non-empty
    names and file list) and every requested size and scale, the identity
    filter always yields a candidate, so the size matcher (and hence the
    `unwrap` in `file_for_size` / `file_for_size_scaled`) never fails. -/
theorem c4_unwrap_never_fails (n t : String) (fs : List IconFile) (icon : Icon)
    (size scale : Nat) (h : Icon.new n t fs = some icon) :
    (icon.file_for_size_filtered size (fun _ => true)).isSome = true ∧
    (icon.file_for_size_scaled size scale).isSome = true ∧
    (icon.file_for_size size).isSome = true := by
  rcases Icon.new_some n t fs icon h with ⟨-, -, hfiles, -, -, hne⟩
  have hfilter : icon.files.filter (fun _ => true) ≠ [] := by
    rw [hfiles]
    simpa using hne
  have hid : (icon.file_for_size_filtered size (fun _ => true)).isSome = true :=
    (file_for_size_filtered_isSome icon size _).mpr hfilter
  have hscaled : ∀ sc, (icon.file_for_size_scaled size sc).isSome = true := by
    intro sc
    simp only [Icon.file_for_size_scaled]
    cases h1 : icon.file_for_size_filtered size (fun f => f.dir_info.scale == sc) with
    | some f => simp
    | none =>
      simp only
      cases h2 : icon.file_for_size_filtered (wrapMul size sc)
          (fun f => f.dir_info.scale == 1) with
      | some f => simp
      | none =>
        simp only
        exact (file_for_size_filtered_isSome icon size _).mpr hfilter
  exact ⟨hid, hscaled scale, by simpa [Icon.file_for_size] using hscaled 1⟩

/-- Concrete icon used by the C4 witness. -/
def iconC4w : Icon := ⟨"i", "t", [sampleFile 16 IconSizeType.Fixed]⟩

/-- Witness for C4 at a concrete constructed icon. -/
theorem c4_unwrap_never_fails_witness :
    Icon.new "i" "t" [sampleFile 16 IconSizeType.Fixed] = some iconC4w ∧
    ((iconC4w.file_for_size_filtered 64 (fun _ => true)).isSome = true ∧
     (iconC4w.file_for_size_scaled 64 2).isSome = true ∧
     (iconC4w.file_for_size 64).isSome = true) :=
  ⟨by decide, c4_unwrap_never_fails "i" "t" [sampleFile 16 IconSizeType.Fixed] iconC4w 64 2
    (by decide)⟩

/-- With an empty filtered candidate list the size matcher returns `none`. -/
theorem file_for_size_filtered_eq_none (icon : Icon) (size : Nat) (flt : IconFile → Bool)
    (h : icon.files.filter flt = []) :
    icon.file_for_size_filtered size flt = none := by
  rcases hopt : icon.file_for_size_filtered size flt with _ | f
  · rfl
  · exfalso
    have hs : (icon.file_for_size_filtered size flt).isSome = true := by rw [hopt]; rfl
    exact (file_for_size_filtered_isSome icon size flt).mp hs h

/-- C2 counterexample data: two scale-1 fixed directories, sizes 600 and 464. -/
def iconC2 : Icon :=
  ⟨"i", "t", [sampleFile 600 IconSizeType.Fixed, sampleFile 464 IconSizeType.Fixed]⟩

/-- Counterexample to C2 as stated: at target size 33000 and scale 2 there
    is no scale-2 candidate, so the claim requires the result of
    size-resolution at the mathematical product 33000 × 2 = 66000 restricted
    to scale 1 (which picks the size-600 file as largest available); the code
    instead resolves at the u16-wrapped product 464 and picks the size-464
    file as an exact match. -/
theorem c2_counterexample :
    iconC2.files.filter (fun f => f.dir_info.scale == 2) = [] ∧
    iconC2.file_for_size_scaled 33000 2 = some (sampleFile 464 IconSizeType.Fixed) ∧
    iconC2.file_for_size_filtered (33000 * 2) (fun f => f.dir_info.scale == 1) =
      some (sampleFile 600 IconSizeType.Fixed) ∧
    iconC2.file_for_size_scaled 33000 2 ≠
      iconC2.file_for_size_filtered (33000 * 2) (fun f => f.dir_info.scale == 1) := by
  refine ⟨by decide, by decide, by decide, by decide⟩

/-- C2 amended: `file_for_size_scaled` first runs size-resolution restricted
    to candidates at the requested scale; if no candidate exists at that
    scale, it runs size-resolution requesting the u16-wrapping product
    `size * scale` restricted to scale-1 candidates; only if no scale-1
    candidate exists either does it run size-resolution with no scale
    restriction. -/
theorem c2_scale_cascade (icon : Icon) (size scale : Nat) :
    (icon.files.filter (fun f => f.dir_info.scale == scale) ≠ [] →
      icon.file_for_size_scaled size scale =
        icon.file_for_size_filtered size (fun f => f.dir_info.scale == scale) ∧
      (icon.file_for_size_scaled size scale).isSome = true)
    ∧ (icon.files.filter (fun f => f.dir_info.scale == scale) = [] →
       icon.files.filter (fun f => f.dir_info.scale == 1) ≠ [] →
      icon.file_for_size_scaled size scale =
        icon.file_for_size_filtered (wrapMul size scale) (fun f => f.dir_info.scale == 1) ∧
      (icon.file_for_size_scaled size scale).isSome = true)
    ∧ (icon.files.filter (fun f => f.dir_info.scale == scale) = [] →
       icon.files.filter (fun f => f.dir_info.scale == 1) = [] →
      icon.file_for_size_scaled size scale =
        icon.file_for_size_filtered size (fun _ => true)) := by
  refine ⟨?_, ?_, ?_⟩
  · intro hne
    have hsome : (icon.file_for_size_filtered size
        (fun f => f.dir_info.scale == scale)).isSome = true :=
      (file_for_size_filtered_isSome icon size _).mpr hne
    rcases Option.isSome_iff_exists.mp hsome with ⟨f, hf⟩
    constructor
    · simp [Icon.file_for_size_scaled, hf]
    · simp [Icon.file_for_size_scaled, hf]
  · intro hempty hne1
    have h1 : icon.file_for_size_filtered size (fun f => f.dir_info.scale == scale) = none :=
      file_for_size_filtered_eq_none icon size _ hempty
    have hsome : (icon.file_for_size_filtered (wrapMul size scale)
        (fun f => f.dir_info.scale == 1)).isSome = true :=
      (file_for_size_filtered_isSome icon _ _).mpr hne1
    rcases Option.isSome_iff_exists.mp hsome with ⟨f, hf⟩
    constructor
    · simp [Icon.file_for_size_scaled, h1, hf]
    · simp [Icon.file_for_size_scaled, h1, hf]
  · intro hempty hempty1
    have h1 : icon.file_for_size_filtered size (fun f => f.dir_info.scale == scale) = none :=
      file_for_size_filtered_eq_none icon size _ hempty
    have h2 : icon.file_for_size_filtered (wrapMul size scale)
        (fun f => f.dir_info.scale == 1) = none :=
      file_for_size_filtered_eq_none icon (wrapMul size scale) _ hempty1
    simp [Icon.file_for_size_scaled, h1, h2]

/-- C2 witness data: only scale-1 directories of sizes 16 and 32. -/
def iconC2w : Icon :=
  ⟨"i", "t", [sampleFile 16 IconSizeType.Fixed, sampleFile 32 IconSizeType.Fixed]⟩

/-- Witness for the amended C2: requesting size 16 at scale 2 with only
    scale-1 candidates resolves through the scale-1 pass at size 32. -/
theorem c2_scale_cascade_witness :
    iconC2w.files.filter (fun f => f.dir_info.scale == 2) = [] ∧
    iconC2w.files.filter (fun f => f.dir_info.scale == 1) ≠ [] ∧
    (iconC2w.file_for_size_scaled 16 2 =
      iconC2w.file_for_size_filtered (wrapMul 16 2) (fun f => f.dir_info.scale == 1) ∧
     (iconC2w.file_for_size_scaled 16 2).isSome = true) :=
  ⟨by decide, by decide, (c2_scale_cascade iconC2w 16 2).2.1 (by decide) (by decide)⟩

/-- C3 counterexample data: a Threshold directory of size 1 with default
    threshold 2, and a Fixed directory of size 5. -/
def iconC3 : Icon :=
  ⟨"i", "t", [sampleFile 1 IconSizeType.Threshold, sampleFile 5 IconSizeType.Fixed]⟩

/-- Counterexample to C3 as stated: at requested size 2 there is no exact
    match, and the size-1 Threshold candidate's window `[size−threshold,
    size+threshold] = [−1, 3]` contains 2 in exact arithmetic (its lower
    bound is vacuous, `size ≤ 2 + threshold` and `2 ≤ size + threshold`
    hold), yet the code's u16 computation of `1 - 2` wraps to 65535, the
    window test fails, and the size-5 file is returned by the
    smallest-strictly-greater rule instead. -/
theorem c3_counterexample :
    (∀ f ∈ iconC3.files.filter (fun _ => true), f.dir_info.size ≠ 2) ∧
    (sampleFile 1 IconSizeType.Threshold).dir_info.sizeType = IconSizeType.Threshold ∧
    (sampleFile 1 IconSizeType.Threshold).dir_info.size ≤
      2 + (sampleFile 1 IconSizeType.Threshold).dir_info.thresholdGet ∧
    2 ≤ (sampleFile 1 IconSizeType.Threshold).dir_info.size +
      (sampleFile 1 IconSizeType.Threshold).dir_info.thresholdGet ∧
    iconC3.file_for_size_filtered 2 (fun _ => true) = some (sampleFile 5 IconSizeType.Fixed) ∧
    sampleFile 5 IconSizeType.Fixed ≠ sampleFile 1 IconSizeType.Threshold := by
  refine ⟨by decide, by decide, by decide, by decide, by decide, by decide⟩

/-- C3 amended: when no candidate has an exact directory-size match, the
    first Threshold-typed candidate whose window (computed in u16 wrapping
    arithmetic, as the code does) contains the requested size is selected,
    before the smallest-strictly-greater and largest-available rules. -/
theorem c3_threshold_rule (icon : Icon) (size : Nat) (flt : IconFile → Bool) (f : IconFile)
    (hnoexact : ∀ g ∈ icon.files.filter flt, g.dir_info.size ≠ size)
    (hfind : ((icon.files.filter flt).filter
        (fun g => g.dir_info.sizeType == IconSizeType.Threshold)).find?
        (thresholdMatches size) = some f) :
    icon.file_for_size_filtered size flt = some f ∧
    f.dir_info.sizeType = IconSizeType.Threshold ∧
    thresholdMatches size f = true ∧
    ∃ l1 l2, (icon.files.filter flt).filter
        (fun g => g.dir_info.sizeType == IconSizeType.Threshold) = l1 ++ f :: l2 ∧
      ∀ g ∈ l1, thresholdMatches size g = false := by
  have h1 : (icon.files.filter flt).find? (fun f => f.dir_info.size == size) = none := by
    rw [List.find?_eq_none]
    intro x hx
    simpa using hnoexact x hx
  rcases find?_eq_some_split _ _ _ hfind with ⟨hmatch, l1, l2, hsplit, hfail⟩
  have hty : f.dir_info.sizeType = IconSizeType.Threshold := by
    have hmem : f ∈ (icon.files.filter flt).filter
        (fun g => g.dir_info.sizeType == IconSizeType.Threshold) :=
      List.mem_of_find?_eq_some hfind
    simpa using (List.mem_filter.mp hmem).2
  refine ⟨?_, hty, hmatch, l1, l2, hsplit, hfail⟩
  simp only [Icon.file_for_size_filtered, h1, hfind]

/-- C3 witness data: the spec's own example, a Threshold directory of size
    48 with threshold 4, next to a Fixed directory of size 64. -/
def iconC3w : Icon :=
  ⟨"i", "t", [⟨⟨"p", 48, 1, none, IconSizeType.Threshold, none, none, some 4⟩, [],
      IconFileType.PNG⟩, sampleFile 64 IconSizeType.Fixed]⟩

/-- Witness for the amended C3: requesting size 46 selects the size-48
    Threshold directory through its window. -/
theorem c3_threshold_rule_witness :
    iconC3w.file_for_size_filtered 46 (fun _ => true) =
      some ⟨⟨"p", 48, 1, none, IconSizeType.Threshold, none, none, some 4⟩, [],
        IconFileType.PNG⟩ ∧
    (⟨⟨"p", 48, 1, none, IconSizeType.Threshold, none, none, some 4⟩, [],
        IconFileType.PNG⟩ : IconFile).dir_info.sizeType = IconSizeType.Threshold ∧
    thresholdMatches 46 ⟨⟨"p", 48, 1, none, IconSizeType.Threshold, none, none, some 4⟩, [],
        IconFileType.PNG⟩ = true ∧
    ∃ l1 l2, (iconC3w.files.filter (fun _ => true)).filter
        (fun g => g.dir_info.sizeType == IconSizeType.Threshold) =
        l1 ++ (⟨⟨"p", 48, 1, none, IconSizeType.Threshold, none, none, some 4⟩, [],
          IconFileType.PNG⟩ : IconFile) :: l2 ∧
      ∀ g ∈ l1, thresholdMatches 46 g = false :=
  c3_threshold_rule iconC3w 46 (fun _ => true) _ (by decide) (by decide)

/-- One theme's contribution at a single search root (`IconTheme` in
    `icon_theme.rs`): its content directory and its parsed directory list. -/
structure IconTheme where
  content_dir : String
  key_list : List IconDir
deriving DecidableEq, Repr

/-- The merged view of one theme name across all search roots
    (`IconThemes`): name, per-root themes in root order, and the
    deduplicated parent list. -/
structure IconThemes where
  name : String
  themes : List IconTheme
  parents : List String
deriving DecidableEq, Repr

/-- The filesystem as the loader observes it: `theme_dirs` records, per
    (search-root, theme-name) pair, the outcome of `IconTheme::from_dir`
    on `root/themeName` (`some` exactly when that directory exists and its
    `index.theme` parses to a non-empty directory list, paired with the
    declared parents); `path_exists` records the existence checks
    `contentDir/dirPath/iconName.ext` performed during candidate
    collection.  The finite `theme_dirs` list reflects that a filesystem
    holds finitely many theme directories. -/
structure World where
  theme_dirs : List ((String × String) × (IconTheme × List String))
  path_exists : String → String → String → IconFileType → Bool

/-- Outcome of `IconTheme::from_dir(searchPath.join(themeName))`. -/
def World.from_dir (w : World) (sp theme_name : String) : Option (IconTheme × List String) :=
  (w.theme_dirs.find? (fun e => e.1.1 == sp && e.1.2 == theme_name)).map (fun e => e.2)

/-- `IconTheme::entries`: for each directory and each file type in priority
    order, include the candidate path if it exists on disk. -/
def IconTheme.entries (t : IconTheme) (w : World) (icon_name : String) : List IconFile :=
  if icon_name = "" then []
  else
    (t.key_list.map (fun d =>
      IconFileType.types.filterMap (fun ty =>
        if w.path_exists t.content_dir d.path icon_name ty then
          some ⟨d, [t.content_dir, d.path, icon_name], ty⟩
        else none))).flatten

/-- `IconThemes::find`: scan every search root in order, pool the found
    per-root themes and accumulate deduplicated declared parents, then
    append "hicolor" if it is not already present. -/
def IconThemes.find (w : World) (search_paths : List String) (theme_name : String) :
    IconThemes :=
  let ts := search_paths.foldl (fun (acc : IconThemes) sp =>
    match w.from_dir sp theme_name with
    | some pr =>
      ⟨acc.name,
       acc.themes ++ [pr.1],
       pr.2.foldl (fun ps p => if p ∈ ps then ps else ps ++ [p]) acc.parents⟩
    | none => acc) ⟨theme_name, [], []⟩
  if "hicolor" ∈ ts.parents then ts
  else ⟨ts.name, ts.themes, ts.parents ++ ["hicolor"]⟩

/-- `IconThemes::is_empty`. -/
def IconThemes.is_empty (ts : IconThemes) : Bool := ts.themes.isEmpty

/-- `IconThemes::find_icon`: collect the candidate files across the merged
    per-root themes and construct an `Icon` from them. -/
def IconThemes.find_icon (ts : IconThemes) (w : World) (icon_name : String) : Option Icon :=
  if ts.is_empty then none
  else
    let entries := (ts.themes.map (fun t => t.entries w icon_name)).flatten
    if entries = [] then none
    else Icon.new icon_name ts.name entries

/-- Error taxonomy of the loader (`Error` in `error.rs`); the provider
    error payload is abstracted to a message string. -/
inductive LoaderError where
  | icon_not_found (icon_name : String)
  | theme_not_found (theme_name : String)
  | theme_name_provider (msg : String)
deriving DecidableEq, Repr

/-- Outcome of querying the configured theme-name provider
    (`ThemeNameProvider::theme_name()`). -/
inductive ThemeNameProvider where
  | ok (name : String)
  | err (msg : String)
deriving DecidableEq, Repr

/-- The central loader state (`IconLoader`): theme names, the two caches
    (the `DashMap`s modelled as association lists where an insert
    prepends), the configured search paths (the `Custom` variant of
    `SearchPaths`), and the provider. -/
structure IconLoader where
  theme_name : String
  fallback_theme_name : String
  theme_cache : List (String × IconThemes)
  icon_cache : List (String × Option Icon)
  search_paths : List String
  theme_name_provider : ThemeNameProvider
deriving DecidableEq, Repr

/-- `DashMap::get`: first binding of the key. -/
def cache_get (c : List (String × α)) (k : String) : Option α :=
  (c.find? (fun e => e.1 == k)).map (fun e => e.2)

/-- `DashMap::insert`: a later binding shadows earlier ones. -/
def cache_insert (c : List (String × α)) (k : String) (v : α) : List (String × α) :=
  (k, v) :: c

/-- `IconLoader::load_themes`: return the cached chain or build and cache it. -/
def IconLoader.load_themes (st : IconLoader) (w : World) (theme_name : String) :
    IconThemes × IconLoader :=
  match cache_get st.theme_cache theme_name with
  | some ts => (ts, st)
  | none =>
    let ts := IconThemes.find w st.search_paths theme_name
    (ts, { st with theme_cache := cache_insert st.theme_cache theme_name ts })

/-- `IconLoader::theme_exists`: empty names never exist; otherwise the
    (cached) chain must be non-empty. -/
def IconLoader.theme_exists (st : IconLoader) (w : World) (theme_name : String) :
    Bool × IconLoader :=
  if theme_name = "" then (false, st)
  else
    let p := st.load_themes w theme_name
    (!p.1.is_empty, p.2)

/-- `IconLoader::update_theme_name`: query the provider; on an equal name
    do nothing; otherwise switch only if the theme exists, clearing the
    icon cache. -/
def IconLoader.update_theme_name (st : IconLoader) (w : World) :
    Except LoaderError Unit × IconLoader :=
  match st.theme_name_provider with
  | ThemeNameProvider.err msg => (Except.error (LoaderError.theme_name_provider msg), st)
  | ThemeNameProvider.ok name =>
    if st.theme_name = name then (Except.ok (), st)
    else
      let p := st.theme_exists w name
      if p.1 then
        (Except.ok (), { p.2 with theme_name := name, icon_cache := [] })
      else (Except.error (LoaderError.theme_not_found name), p.2)

/-- `IconLoader::set_search_paths`: a genuinely new path list clears both
    caches; an equal one is a no-op. -/
def IconLoader.set_search_paths (st : IconLoader) (paths : List String) : IconLoader :=
  if st.search_paths = paths then st
  else { st with search_paths := paths, theme_cache := [], icon_cache := [] }

/-- Fuel-indexed model of the recursion of `IconLoader::find_icon`,
    structurally recursive on the fuel so that it evaluates by reduction.
    The command `Sum.inl themeName` visits one theme: record it in
    `searched`, return its icon when the (cached) chain matches, otherwise
    run the parents loop; the command `Sum.inr parents` is the
    `for parent in themes.parents()` loop, skipping already-searched names.
    `none` means the fuel ran out; the termination theorem shows a
    computable fuel always suffices, which is exactly the termination of
    the source recursion. -/
def find_step (w : World) (icon_name : String) :
    Nat → Sum String (List String) → IconLoader → List String →
    Option (Option Icon × IconLoader × List String)
  | 0, _, _, _ => none
  | fuel + 1, Sum.inl theme_name, st, searched =>
    if theme_name = "" ∨ icon_name = "" then some (none, st, searched)
    else
      let searched1 := searched ++ [theme_name]
      let p := st.load_themes w theme_name
      match p.1.find_icon w icon_name with
      | some icon => some (some icon, p.2, searched1)
      | none => find_step w icon_name fuel (Sum.inr p.1.parents) p.2 searched1
  | _ + 1, Sum.inr [], st, searched => some (none, st, searched)
  | fuel + 1, Sum.inr (p :: ps), st, searched =>
    if p ∈ searched then find_step w icon_name fuel (Sum.inr ps) st searched
    else
      match find_step w icon_name fuel (Sum.inl p) st searched with
      | none => none
      | some (some icon, st1, searched1) => some (some icon, st1, searched1)
      | some (none, st1, searched1) => find_step w icon_name fuel (Sum.inr ps) st1 searched1

/-- Entry point of the modelled `IconLoader::find_icon` recursion. -/
def find_icon_fuel (w : World) (icon_name : String) (fuel : Nat) (theme_name : String)
    (st : IconLoader) (searched : List String) :
    Option (Option Icon × IconLoader × List String) :=
  find_step w icon_name fuel (Sum.inl theme_name) st searched

/-- `IconLoader::load_icon`: answer from the icon cache when possible;
    otherwise search the current theme, then the fallback theme with the
    same `searched` list, cache the outcome (also a miss), and surface
    `IconNotFound` when both fail. -/
def IconLoader.load_icon (st : IconLoader) (w : World) (fuel : Nat) (icon_name : String) :
    Option (Except LoaderError Icon × IconLoader) :=
  match cache_get st.icon_cache icon_name with
  | some (some icon) => some (Except.ok icon, st)
  | some none => some (Except.error (LoaderError.icon_not_found icon_name), st)
  | none =>
    match find_icon_fuel w icon_name fuel st.theme_name st [] with
    | none => none
    | some (some icon, st1, _) =>
      some (Except.ok icon,
        { st1 with icon_cache := cache_insert st1.icon_cache icon_name (some icon) })
    | some (none, st1, searched1) =>
      match find_icon_fuel w icon_name fuel st1.fallback_theme_name st1 searched1 with
      | none => none
      | some (r2, st2, _) =>
        let st3 := { st2 with icon_cache := cache_insert st2.icon_cache icon_name r2 }
        match r2 with
        | some icon => some (Except.ok icon, st3)
        | none => some (Except.error (LoaderError.icon_not_found icon_name), st3)

/-- The parent-accumulation step of `IconThemes::find` preserves dedup. -/
theorem parents_foldl_nodup :
    ∀ (new ps : List String), ps.Nodup →
      (new.foldl (fun ps p => if p ∈ ps then ps else ps ++ [p]) ps).Nodup := by
  intro new
  induction new with
  | nil => intro ps h; simpa using h
  | cons x xs ih =>
    intro ps h
    simp only [List.foldl_cons]
    by_cases hx : x ∈ ps
    · rw [if_pos hx]
      exact ih ps h
    · rw [if_neg hx]
      refine ih _ ?_
      simp [List.nodup_append, h, hx]

/-- Parent lists produced by the fold of `IconThemes::find` stay deduplicated. -/
theorem themes_find_foldl_nodup (w : World) (theme_name : String) :
    ∀ (sps : List String) (acc : IconThemes), acc.parents.Nodup →
      ((sps.foldl (fun (acc : IconThemes) sp =>
        match w.from_dir sp theme_name with
        | some pr =>
          ⟨acc.name,
           acc.themes ++ [pr.1],
           pr.2.foldl (fun ps p => if p ∈ ps then ps else ps ++ [p]) acc.parents⟩
        | none => acc) acc).parents).Nodup := by
  intro sps
  induction sps with
  | nil => intro acc h; simpa using h
  | cons sp sps ih =>
    intro acc h
    simp only [List.foldl_cons]
    cases hdir : w.from_dir sp theme_name with
    | none => simpa [hdir] using ih acc h
    | some pr =>
      simp only [hdir]
      exact ih _ (parents_foldl_nodup pr.2 acc.parents h)

/-- "hicolor" is always a member of the parent list built by
    `IconThemes::find`. -/
theorem hicolor_mem_find_parents (w : World) (search_paths : List String)
    (theme_name : String) :
    "hicolor" ∈ (IconThemes.find w search_paths theme_name).parents := by
  simp only [IconThemes.find]
  by_cases h : "hicolor" ∈ (search_paths.foldl (fun (acc : IconThemes) sp =>
      match w.from_dir sp theme_name with
      | some pr =>
        ⟨acc.name,
         acc.themes ++ [pr.1],
         pr.2.foldl (fun ps p => if p ∈ ps then ps else ps ++ [p]) acc.parents⟩
      | none => acc) ⟨theme_name, [], []⟩).parents
  · rw [if_pos h]
    exact h
  · rw [if_neg h]
    simp

/-- The parent list built by `IconThemes::find` is deduplicated. -/
theorem find_parents_nodup (w : World) (search_paths : List String) (theme_name : String) :
    (IconThemes.find w search_paths theme_name).parents.Nodup := by
  have hnodup : ((search_paths.foldl (fun (acc : IconThemes) sp =>
      match w.from_dir sp theme_name with
      | some pr =>
        ⟨acc.name,
         acc.themes ++ [pr.1],
         pr.2.foldl (fun ps p => if p ∈ ps then ps else ps ++ [p]) acc.parents⟩
      | none => acc) ⟨theme_name, [], []⟩).parents).Nodup :=
    themes_find_foldl_nodup w theme_name search_paths ⟨theme_name, [], []⟩ (by simp)
  simp only [IconThemes.find]
  by_cases h : "hicolor" ∈ (search_paths.foldl (fun (acc : IconThemes) sp =>
      match w.from_dir sp theme_name with
      | some pr =>
        ⟨acc.name,
         acc.themes ++ [pr.1],
         pr.2.foldl (fun ps p => if p ∈ ps then ps else ps ++ [p]) acc.parents⟩
      | none => acc) ⟨theme_name, [], []⟩).parents
  · rw [if_pos h]
    exact hnodup
  · rw [if_neg h]
    simp [List.nodup_append, hnodup, h]

/-- C7: for every theme name and every ordered list of search roots, the
    built theme chain's parent list contains "hicolor" (appended after all
    roots are scanned when absent, also when the theme is found in no root
    or no root declares parents), and the parent list is deduplicated. -/
theorem c7_hicolor_fallback (w : World) (search_paths : List String) (theme_name : String) :
    "hicolor" ∈ (IconThemes.find w search_paths theme_name).parents ∧
    (IconThemes.find w search_paths theme_name).parents.Nodup :=
  ⟨hicolor_mem_find_parents w search_paths theme_name,
   find_parents_nodup w search_paths theme_name⟩

/-- Reading back the binding just inserted into a cache. -/
theorem cache_get_insert_self (c : List (String × α)) (k : String) (v : α) :
    cache_get (cache_insert c k v) k = some v := by
  simp [cache_get, cache_insert, List.find?_cons]

/-- C8: after a `load_icon` call, repeating the call for the same name is
    answered purely from the icon cache: it returns the same result and the
    same state, for any filesystem `w'` and any fuel — in particular it
    performs no filesystem access at all. -/
theorem c8_second_lookup_cached (w : World) (fuel : Nat) (st : IconLoader)
    (icon_name : String) (r1 : Except LoaderError Icon) (st1 : IconLoader)
    (h : st.load_icon w fuel icon_name = some (r1, st1)) :
    ∀ (w' : World) (fuel' : Nat), st1.load_icon w' fuel' icon_name = some (r1, st1) := by
  intro w' fuel'
  unfold IconLoader.load_icon at h
  cases hc : cache_get st.icon_cache icon_name with
  | some o =>
    cases o with
    | some icon =>
      simp only [hc] at h
      injection h with hpair
      injection hpair with hr hs
      subst hr
      subst hs
      unfold IconLoader.load_icon
      simp only [hc]
    | none =>
      simp only [hc] at h
      injection h with hpair
      injection hpair with hr hs
      subst hr
      subst hs
      unfold IconLoader.load_icon
      simp only [hc]
  | none =>
    simp only [hc] at h
    cases hf1 : find_icon_fuel w icon_name fuel st.theme_name st [] with
    | none => simp only [hf1] at h; cases h
    | some out1 =>
      rcases out1 with ⟨r, stA, s1⟩
      cases r with
      | some icon =>
        simp only [hf1] at h
        injection h with hpair
        injection hpair with hr hs
        subst hr
        subst hs
        unfold IconLoader.load_icon
        simp [cache_get_insert_self]
      | none =>
        simp only [hf1] at h
        cases hf2 : find_icon_fuel w icon_name fuel stA.fallback_theme_name stA s1 with
        | none => simp only [hf2] at h; cases h
        | some out2 =>
          rcases out2 with ⟨r2, stB, s2⟩
          cases r2 with
          | some icon =>
            simp only [hf2] at h
            injection h with hpair
            injection hpair with hr hs
            subst hr
            subst hs
            unfold IconLoader.load_icon
            simp [cache_get_insert_self]
          | none =>
            simp only [hf2] at h
            injection h with hpair
            injection hpair with hr hs
            subst hr
            subst hs
            unfold IconLoader.load_icon
            simp [cache_get_insert_self]

/-- C10: a failed lookup is negatively cached: once `load_icon` has
    returned an error for a name, every later `load_icon` for that name
    answers `IconNotFound` from the cache with the state unchanged, for any
    filesystem and fuel (so no theme is searched again even if the icon has
    appeared on disk); and a genuine search-path change clears the icon
    cache. -/
theorem c10_negative_cache (w : World) (fuel : Nat) (st : IconLoader)
    (icon_name : String) (e : LoaderError) (st1 : IconLoader)
    (h : st.load_icon w fuel icon_name = some (Except.error e, st1)) :
    (∀ (w' : World) (fuel' : Nat), st1.load_icon w' fuel' icon_name =
      some (Except.error (LoaderError.icon_not_found icon_name), st1)) ∧
    (∀ paths, paths ≠ st1.search_paths → (st1.set_search_paths paths).icon_cache = []) := by
  constructor
  · intro w' fuel'
    unfold IconLoader.load_icon at h
    cases hc : cache_get st.icon_cache icon_name with
    | some o =>
      cases o with
      | some icon =>
        simp only [hc] at h
        injection h with hpair
        injection hpair with hr hs
        cases hr
      | none =>
        simp only [hc] at h
        injection h with hpair
        injection hpair with hr hs
        subst hs
        unfold IconLoader.load_icon
        rw [hc]
    | none =>
      simp only [hc] at h
      cases hf1 : find_icon_fuel w icon_name fuel st.theme_name st [] with
      | none => simp only [hf1] at h; cases h
      | some out1 =>
        rcases out1 with ⟨r, stA, s1⟩
        cases r with
        | some icon =>
          simp only [hf1] at h
          injection h with hpair
          injection hpair with hr hs
          cases hr
        | none =>
          simp only [hf1] at h
          cases hf2 : find_icon_fuel w icon_name fuel stA.fallback_theme_name stA s1 with
          | none => simp only [hf2] at h; cases h
          | some out2 =>
            rcases out2 with ⟨r2, stB, s2⟩
            cases r2 with
            | some icon =>
              simp only [hf2] at h
              injection h with hpair
              injection hpair with hr hs
              cases hr
            | none =>
              simp only [hf2] at h
              injection h with hpair
              injection hpair with hr hs
              subst hs
              unfold IconLoader.load_icon
              simp [cache_get_insert_self]
  · intro paths hne
    unfold IconLoader.set_search_paths
    rw [if_neg (fun hh => hne hh.symm)]

deriving instance DecidableEq for Except

/-- An empty filesystem: no theme directories, no icon files. -/
def w0 : World := ⟨[], fun _ _ _ _ => false⟩

/-- A freshly configured loader with no search paths. -/
def st0 : IconLoader := ⟨"hicolor", "hicolor", [], [], [], ThemeNameProvider.ok "hicolor"⟩

/-- The loader state after a failed lookup of "x" from `st0` on `w0`. -/
def st0miss : IconLoader :=
  ⟨"hicolor", "hicolor", [("hicolor", ⟨"hicolor", [], ["hicolor"]⟩)], [("x", none)], [],
    ThemeNameProvider.ok "hicolor"⟩

/-- Witness for C10: after the failed lookup of "x", a later lookup with
    zero fuel on the empty filesystem still answers `IconNotFound` from the
    cache, and changing the search paths clears the icon cache. -/
theorem c10_negative_cache_witness :
    st0miss.load_icon w0 0 "x" =
      some (Except.error (LoaderError.icon_not_found "x"), st0miss) ∧
    (st0miss.set_search_paths ["r"]).icon_cache = [] :=
  ⟨(c10_negative_cache w0 3 st0 "x" (LoaderError.icon_not_found "x") st0miss (by decide)).1 w0 0,
   (c10_negative_cache w0 3 st0 "x" (LoaderError.icon_not_found "x") st0miss (by decide)).2
     ["r"] (by decide)⟩

/-- Directory parsed from a section with `Size=32` and defaults otherwise. -/
def dirW : IconDir := ⟨"32", 32, 1, none, IconSizeType.Threshold, none, none, none⟩

/-- A theme found at `root/Adw` with one directory. -/
def themeW : IconTheme := ⟨"root/Adw", [dirW]⟩

/-- A filesystem with the single theme `Adw` under the root `root`, every
    candidate file present. -/
def w1 : World := ⟨[(("root", "Adw"), (themeW, []))], fun _ _ _ _ => true⟩

/-- A loader configured for theme `Adw` over `w1`. -/
def st1w : IconLoader := ⟨"Adw", "hicolor", [], [], ["root"], ThemeNameProvider.ok "Adw"⟩

/-- The icon found for "ic" in `w1`. -/
def iconW : Icon :=
  ⟨"ic", "Adw",
   [⟨dirW, ["root/Adw", "32", "ic"], IconFileType.PNG⟩,
    ⟨dirW, ["root/Adw", "32", "ic"], IconFileType.SVG⟩,
    ⟨dirW, ["root/Adw", "32", "ic"], IconFileType.XPM⟩]⟩

/-- The loader state after the successful lookup of "ic" from `st1w`. -/
def st1after : IconLoader :=
  ⟨"Adw", "hicolor", [("Adw", ⟨"Adw", [themeW], ["hicolor"]⟩)], [("ic", some iconW)],
    ["root"], ThemeNameProvider.ok "Adw"⟩

/-- Witness for C8: after a successful lookup of "ic", repeating the call
    on the empty filesystem with zero fuel returns the same icon and the
    same state — the answer comes entirely from the cache. -/
theorem c8_second_lookup_cached_witness :
    st1after.load_icon w0 0 "ic" = some (Except.ok iconW, st1after) :=
  c8_second_lookup_cached w1 1 st1w "ic" (Except.ok iconW) st1after (by decide) w0 0

/-- Fields of the loader untouched by `load_themes` (it only inserts into
    the theme cache). -/
theorem load_themes_fields (st : IconLoader) (w : World) (n : String) :
    (st.load_themes w n).2.theme_name = st.theme_name ∧
    (st.load_themes w n).2.fallback_theme_name = st.fallback_theme_name ∧
    (st.load_themes w n).2.icon_cache = st.icon_cache ∧
    (st.load_themes w n).2.search_paths = st.search_paths ∧
    (st.load_themes w n).2.theme_name_provider = st.theme_name_provider := by
  unfold IconLoader.load_themes
  cases cache_get st.theme_cache n <;> simp

/-- Counterexample to C9 as stated: on an empty filesystem no theme named
    "hicolor" exists, and the provider supplies "hicolor", which is the
    loader's current theme name; the claim demands an error, but
    `update_theme_name` returns `Ok` with the state unchanged, because the
    existence check is skipped when the provided name equals the current
    one. -/
theorem c9_counterexample :
    st0.theme_name_provider = ThemeNameProvider.ok "hicolor" ∧
    (st0.theme_exists w0 "hicolor").1 = false ∧
    st0.theme_name = "hicolor" ∧
    st0.update_theme_name w0 = (Except.ok (), st0) := by
  refine ⟨rfl, by decide, rfl, by decide⟩

/-- C9 amended: `update_theme_name` is atomic on failure: a provider error,
    or a provided name that differs from the current one and does not exist
    in the current search paths, yields an error with the theme name and
    icon cache unchanged; a provided name equal to the current one yields
    `Ok` with the state unchanged even if that theme does not exist; the
    icon cache is cleared and the name updated exactly when the provided
    name differs and its theme exists. -/
theorem c9_update_atomic (w : World) (st : IconLoader) :
    (∀ msg, st.theme_name_provider = ThemeNameProvider.err msg →
      st.update_theme_name w = (Except.error (LoaderError.theme_name_provider msg), st))
    ∧ (∀ name, st.theme_name_provider = ThemeNameProvider.ok name → st.theme_name = name →
      st.update_theme_name w = (Except.ok (), st))
    ∧ (∀ name, st.theme_name_provider = ThemeNameProvider.ok name → st.theme_name ≠ name →
      ((st.theme_exists w name).1 = true →
        (st.update_theme_name w).1 = Except.ok () ∧
        (st.update_theme_name w).2.theme_name = name ∧
        (st.update_theme_name w).2.icon_cache = [])
      ∧ ((st.theme_exists w name).1 = false →
        (st.update_theme_name w).1 = Except.error (LoaderError.theme_not_found name) ∧
        (st.update_theme_name w).2.theme_name = st.theme_name ∧
        (st.update_theme_name w).2.icon_cache = st.icon_cache)) := by
  refine ⟨?_, ?_, ?_⟩
  · intro msg hp
    unfold IconLoader.update_theme_name
    simp only [hp]
  · intro name hp heq
    unfold IconLoader.update_theme_name
    simp only [hp]
    rw [if_pos heq]
  · intro name hp hne
    constructor
    · intro hex
      unfold IconLoader.update_theme_name
      simp only [hp]
      rw [if_neg hne]
      simp only [hex]
      exact ⟨rfl, rfl, rfl⟩
    · intro hex
      unfold IconLoader.update_theme_name
      simp only [hp]
      rw [if_neg hne]
      simp only [hex]
      refine ⟨rfl, ?_, ?_⟩
      · unfold IconLoader.theme_exists
        by_cases hname : name = ""
        · rw [if_pos hname]
          simp
        · rw [if_neg hname]
          exact (load_themes_fields st w name).1
      · unfold IconLoader.theme_exists
        by_cases hname : name = ""
        · rw [if_pos hname]
          simp
        · rw [if_neg hname]
          exact (load_themes_fields st w name).2.2.1

/-- Loader whose provider fails, for the C9 witness. -/
def st0err : IconLoader := ⟨"hicolor", "hicolor", [], [], [], ThemeNameProvider.err "boom"⟩

/-- Witness for the amended C9 at the provider-error branch. -/
theorem c9_update_atomic_witness :
    st0err.update_theme_name w0 =
      (Except.error (LoaderError.theme_name_provider "boom"), st0err) :=
  (c9_update_atomic w0 st0err).1 "boom" rfl

/-- Every parent name declared by any theme directory of the filesystem. -/
def all_declared_parents (w : World) : List String :=
  (w.theme_dirs.map (fun e => e.2.2)).flatten

/-- The theme cache is coherent with the filesystem and the configured
    search paths: every cached chain is what `IconThemes::find` builds.
    This holds for every state the loader reaches, since entries are only
    created by `load_themes` and configuration changes clear the cache. -/
def cache_ok (w : World) (st : IconLoader) : Prop :=
  ∀ pr ∈ st.theme_cache, pr.2 = IconThemes.find w st.search_paths pr.1

/-- All themes in the list were visited and yielded no candidate files. -/
def visited_none (w : World) (sps : List String) (icon_name : String) (l : List String) : Prop :=
  ∀ n ∈ l, (IconThemes.find w sps n).find_icon w icon_name = none

/-- Number of names of `u` not yet searched — the termination measure. -/
def remaining (u searched : List String) : Nat :=
  (u.filter (fun n => decide (n ∉ searched))).length

/-- `IconThemes::find` keeps the requested theme name. -/
theorem themes_find_name (w : World) (search_paths : List String) (theme_name : String) :
    (IconThemes.find w search_paths theme_name).name = theme_name := by
  have hfold : ∀ (sps : List String) (acc : IconThemes),
      (sps.foldl (fun (acc : IconThemes) sp =>
        match w.from_dir sp theme_name with
        | some pr =>
          ⟨acc.name,
           acc.themes ++ [pr.1],
           pr.2.foldl (fun ps p => if p ∈ ps then ps else ps ++ [p]) acc.parents⟩
        | none => acc) acc).name = acc.name := by
    intro sps
    induction sps with
    | nil => intro acc; rfl
    | cons sp sps ih =>
      intro acc
      simp only [List.foldl_cons]
      cases hdir : w.from_dir sp theme_name with
      | none => exact ih acc
      | some pr => exact ih _
  simp only [IconThemes.find]
  by_cases h : "hicolor" ∈ (search_paths.foldl (fun (acc : IconThemes) sp =>
      match w.from_dir sp theme_name with
      | some pr =>
        ⟨acc.name,
         acc.themes ++ [pr.1],
         pr.2.foldl (fun ps p => if p ∈ ps then ps else ps ++ [p]) acc.parents⟩
      | none => acc) ⟨theme_name, [], []⟩).parents
  · rw [if_pos h]
    exact hfold search_paths ⟨theme_name, [], []⟩
  · rw [if_neg h]
    exact hfold search_paths ⟨theme_name, [], []⟩

/-- Membership after the dedup-append fold comes from the base or the new
    elements. -/
theorem dedup_foldl_mem :
    ∀ (new ps : List String) (x : String),
      x ∈ new.foldl (fun ps p => if p ∈ ps then ps else ps ++ [p]) ps →
      x ∈ ps ∨ x ∈ new := by
  intro new
  induction new with
  | nil => intro ps x h; exact Or.inl h
  | cons y ys ih =>
    intro ps x h
    simp only [List.foldl_cons] at h
    by_cases hy : y ∈ ps
    · rw [if_pos hy] at h
      rcases ih ps x h with h | h
      · exact Or.inl h
      · exact Or.inr (List.mem_cons_of_mem _ h)
    · rw [if_neg hy] at h
      rcases ih _ x h with h | h
      · rcases List.mem_append.mp h with h | h
        · exact Or.inl h
        · simp only [List.mem_singleton] at h
          exact Or.inr (h ▸ List.mem_cons_self _ _)
      · exact Or.inr (List.mem_cons_of_mem _ h)

/-- Parents returned by `World.from_dir` are declared parents of the world. -/
theorem from_dir_parents_sub (w : World) (sp theme_name : String) (pr : IconTheme × List String)
    (h : w.from_dir sp theme_name = some pr) :
    ∀ x ∈ pr.2, x ∈ all_declared_parents w := by
  intro x hx
  unfold World.from_dir at h
  cases hfind : w.theme_dirs.find? (fun e => e.1.1 == sp && e.1.2 == theme_name) with
  | none => rw [hfind] at h; cases h
  | some e =>
    rw [hfind] at h
    injection h with h
    subst h
    have hmem : e ∈ w.theme_dirs := List.mem_of_find?_eq_some hfind
    unfold all_declared_parents
    rw [List.mem_flatten]
    exact ⟨e.2.2, List.mem_map_of_mem _ hmem, hx⟩

/-- Every parent in a built chain is "hicolor" or a declared parent. -/
theorem themes_find_parents_sub (w : World) (search_paths : List String) (theme_name : String) :
    ∀ x ∈ (IconThemes.find w search_paths theme_name).parents,
      x = "hicolor" ∨ x ∈ all_declared_parents w := by
  have hfold : ∀ (sps : List String) (acc : IconThemes),
      (∀ x ∈ acc.parents, x = "hicolor" ∨ x ∈ all_declared_parents w) →
      ∀ x ∈ (sps.foldl (fun (acc : IconThemes) sp =>
        match w.from_dir sp theme_name with
        | some pr =>
          ⟨acc.name,
           acc.themes ++ [pr.1],
           pr.2.foldl (fun ps p => if p ∈ ps then ps else ps ++ [p]) acc.parents⟩
        | none => acc) acc).parents,
        x = "hicolor" ∨ x ∈ all_declared_parents w := by
    intro sps
    induction sps with
    | nil => intro acc hacc; exact hacc
    | cons sp sps ih =>
      intro acc hacc
      simp only [List.foldl_cons]
      cases hdir : w.from_dir sp theme_name with
      | none => exact ih acc hacc
      | some pr =>
        refine ih _ ?_
        intro x hx
        rcases dedup_foldl_mem pr.2 acc.parents x hx with h | h
        · exact hacc x h
        · exact Or.inr (from_dir_parents_sub w sp theme_name pr hdir x h)
  intro x hx
  simp only [IconThemes.find] at hx
  by_cases h : "hicolor" ∈ (search_paths.foldl (fun (acc : IconThemes) sp =>
      match w.from_dir sp theme_name with
      | some pr =>
        ⟨acc.name,
         acc.themes ++ [pr.1],
         pr.2.foldl (fun ps p => if p ∈ ps then ps else ps ++ [p]) acc.parents⟩
      | none => acc) ⟨theme_name, [], []⟩).parents
  · rw [if_pos h] at hx
    exact hfold search_paths ⟨theme_name, [], []⟩ (by simp) x hx
  · rw [if_neg h] at hx
    simp only at hx
    rcases List.mem_append.mp hx with hx | hx
    · exact hfold search_paths ⟨theme_name, [], []⟩ (by simp) x hx
    · simp only [List.mem_singleton] at hx
      exact Or.inl hx

/-- Under a coherent cache, `load_themes` returns exactly what
    `IconThemes::find` builds, and preserves coherence. -/
theorem load_themes_spec (w : World) (st : IconLoader) (n : String) (h : cache_ok w st) :
    (st.load_themes w n).1 = IconThemes.find w st.search_paths n ∧
    cache_ok w (st.load_themes w n).2 ∧
    (st.load_themes w n).2.search_paths = st.search_paths := by
  unfold IconLoader.load_themes
  cases hcg : cache_get st.theme_cache n with
  | some ts =>
    simp only [hcg]
    refine ⟨?_, ?_, ?_⟩
    · show ts = IconThemes.find w st.search_paths n
      unfold cache_get at hcg
      cases hfind : st.theme_cache.find? (fun e => e.1 == n) with
      | none => rw [hfind] at hcg; cases hcg
      | some e =>
        rw [hfind] at hcg
        have hkey : e.1 = n := by simpa using List.find?_some hfind
        have hval := h e (List.mem_of_find?_eq_some hfind)
        rw [hkey] at hval
        have hcg2 : e.2 = ts := by simpa using hcg
        rw [← hcg2]
        exact hval
    · exact h
    · trivial
  | none =>
    simp only [hcg]
    refine ⟨by trivial, ?_, by trivial⟩
    intro pr hpr
    rcases List.mem_cons.mp hpr with hpr | hpr
    · subst hpr
      rfl
    · exact h pr hpr

/-- Inverting `IconThemes::find_icon`: a found icon records the requested
    name, the chain's theme name, and exactly the chain's candidate files. -/
theorem themes_find_icon_some (ts : IconThemes) (w : World) (icon_name : String) (ic : Icon)
    (h : ts.find_icon w icon_name = some ic) :
    ic.icon_name = icon_name ∧ ic.theme_name = ts.name ∧
    ic.files = (ts.themes.map (fun t => t.entries w icon_name)).flatten := by
  unfold IconThemes.find_icon at h
  by_cases hempty : ts.is_empty = true
  · rw [if_pos hempty] at h
    cases h
  · rw [if_neg hempty] at h
    by_cases hent : (ts.themes.map (fun t => t.entries w icon_name)).flatten = []
    · rw [if_pos hent] at h
      cases h
    · rw [if_neg hent] at h
      rcases Icon.new_some _ _ _ _ h with ⟨h1, h2, h3, -⟩
      exact ⟨h1, h2, h3⟩

/-- Soundness of the traversal: whatever fuel it completes with, the
    search only grows the searched list by visited themes, every theme
    visited without a hit had no candidate files, and a hit is the icon of
    the last visited theme, carrying exactly that chain's candidate files. -/
theorem find_step_sound (w : World) (icon_name : String) :
    ∀ (fuel : Nat) (cmd : Sum String (List String)) (st : IconLoader) (searched : List String)
      (out : Option Icon × IconLoader × List String),
      cache_ok w st →
      find_step w icon_name fuel cmd st searched = some out →
      cache_ok w out.2.1 ∧
      out.2.1.search_paths = st.search_paths ∧
      (∃ ext, out.2.2 = searched ++ ext ∧
        (out.1 = none → visited_none w st.search_paths icon_name ext) ∧
        (∀ ic, out.1 = some ic → ∃ pre, ext = pre ++ [ic.theme_name] ∧
          visited_none w st.search_paths icon_name pre ∧
          (IconThemes.find w st.search_paths ic.theme_name).find_icon w icon_name = some ic ∧
          ic.icon_name = icon_name ∧
          ic.files = ((IconThemes.find w st.search_paths ic.theme_name).themes.map
            (fun t => t.entries w icon_name)).flatten)) := by
  intro fuel
  induction fuel with
  | zero =>
    intro cmd st searched out hok h
    simp only [find_step] at h
    cases h
  | succ fuel ih =>
    intro cmd st searched out hok h
    cases cmd with
    | inl tn =>
      simp only [find_step] at h
      by_cases hemp : tn = "" ∨ icon_name = ""
      · rw [if_pos hemp] at h
        injection h with h
        subst h
        refine ⟨hok, rfl, [], by simp, ?_, ?_⟩
        · intro _
          intro n hn
          cases hn
        · intro ic hic
          cases hic
      · rw [if_neg hemp] at h
        obtain ⟨hts, hokA, hsp⟩ := load_themes_spec w st tn hok
        cases hfi : (st.load_themes w tn).1.find_icon w icon_name with
        | some icon =>
          simp only [hfi] at h
          injection h with h
          subst h
          have hfi2 : (IconThemes.find w st.search_paths tn).find_icon w icon_name =
              some icon := by
            rw [← hts]
            exact hfi
          rcases themes_find_icon_some _ w icon_name icon hfi2 with ⟨hn1, hn2, hn3⟩
          have htn : icon.theme_name = tn := by
            rw [hn2, themes_find_name]
          refine ⟨hokA, hsp, [tn], by simp, ?_, ?_⟩
          · intro hcon
            cases hcon
          · intro ic hic
            injection hic with hic
            subst hic
            refine ⟨[], by simp [htn], ?_, ?_, hn1, ?_⟩
            · intro n hn
              cases hn
            · rw [htn]
              exact hfi2
            · rw [htn]
              exact hn3
        | none =>
          simp only [hfi] at h
          rcases ih _ _ _ _ hokA h with ⟨hokB, hspB, ext1, hext1, hnone1, hsome1⟩
          rw [hsp] at hspB hnone1 hsome1
          have hvis_tn : (IconThemes.find w st.search_paths tn).find_icon w icon_name = none := by
            rw [← hts]
            exact hfi
          refine ⟨hokB, hspB, tn :: ext1, by simpa using hext1, ?_, ?_⟩
          · intro hr
            intro n hn
            rcases List.mem_cons.mp hn with hn | hn
            · exact hn ▸ hvis_tn
            · exact hnone1 hr n hn
          · intro ic hic
            rcases hsome1 ic hic with ⟨pre, hpre, hvpre, hhit, hicn, hfiles⟩
            refine ⟨tn :: pre, by simp [hpre], ?_, hhit, hicn, hfiles⟩
            intro n hn
            rcases List.mem_cons.mp hn with hn | hn
            · exact hn ▸ hvis_tn
            · exact hvpre n hn
    | inr ps =>
      cases ps with
      | nil =>
        simp only [find_step] at h
        injection h with h
        subst h
        refine ⟨hok, rfl, [], by simp, ?_, ?_⟩
        · intro _
          intro n hn
          cases hn
        · intro ic hic
          cases hic
      | cons p ps' =>
        simp only [find_step] at h
        by_cases hmem : p ∈ searched
        · rw [if_pos hmem] at h
          exact ih _ _ _ _ hok h
        · rw [if_neg hmem] at h
          cases hchild : find_step w icon_name fuel (Sum.inl p) st searched with
          | none =>
            rw [hchild] at h
            cases h
          | some child =>
            obtain ⟨rc, stc, sc⟩ := child
            cases rc with
            | some icon =>
              rw [hchild] at h
              injection h with h
              subst h
              exact ih _ _ _ _ hok hchild
            | none =>
              rw [hchild] at h
              rcases ih _ _ _ _ hok hchild with ⟨hokC, hspC, ext1, hext1, hnone1, -⟩
              simp only at hext1 hspC hokC
              rcases ih _ _ _ _ hokC h with ⟨hokB, hspB, ext2, hext2, hnone2, hsome2⟩
              rw [hspC] at hspB hnone2 hsome2
              refine ⟨hokB, hspB, ext1 ++ ext2, ?_, ?_, ?_⟩
              · rw [hext2, hext1, List.append_assoc]
              · intro hr
                intro n hn
                rcases List.mem_append.mp hn with hn | hn
                · exact hnone1 rfl n hn
                · exact hnone2 hr n hn
              · intro ic hic
                rcases hsome2 ic hic with ⟨pre2, hpre2, hvpre2, hhit, hicn, hfiles⟩
                refine ⟨ext1 ++ pre2, by simp [hpre2], ?_, hhit, hicn, hfiles⟩
                intro n hn
                rcases List.mem_append.mp hn with hn | hn
                · exact hnone1 rfl n hn
                · exact hvpre2 n hn

/-- C5: whenever the inheritance traversal returns an icon, that icon
    belongs to the last visited theme, every theme visited before it (in
    traversal order: a theme first, then its declared parents depth-first,
    skipping already-seen names) had an empty candidate set, and the icon's
    files are exactly the candidate files of that single theme chain —
    never a merge with files of another theme. -/
theorem c5_first_match_wins (w : World) (icon_name theme_name : String) (fuel : Nat)
    (st st1 : IconLoader) (searched searched1 : List String) (ic : Icon)
    (hok : cache_ok w st)
    (h : find_icon_fuel w icon_name fuel theme_name st searched =
      some (some ic, st1, searched1)) :
    ic.icon_name = icon_name ∧
    (IconThemes.find w st.search_paths ic.theme_name).find_icon w icon_name = some ic ∧
    ic.files = ((IconThemes.find w st.search_paths ic.theme_name).themes.map
      (fun t => t.entries w icon_name)).flatten ∧
    ∃ pre, searched1 = searched ++ pre ++ [ic.theme_name] ∧
      ∀ n ∈ pre, (IconThemes.find w st.search_paths n).find_icon w icon_name = none := by
  rcases find_step_sound w icon_name fuel (Sum.inl theme_name) st searched _ hok h with
    ⟨-, -, ext, hext, -, hsome⟩
  simp only at hext hsome
  rcases hsome ic rfl with ⟨pre, hpre, hvpre, hhit, hicn, hfiles⟩
  refine ⟨hicn, hhit, hfiles, pre, ?_, hvpre⟩
  rw [hext, hpre, List.append_assoc]

/-- Filtering with a stronger predicate keeps at most as many elements. -/
theorem filter_length_mono (p q : α → Bool) (himp : ∀ x, p x = true → q x = true) :
    ∀ l : List α, (l.filter p).length ≤ (l.filter q).length := by
  intro l
  induction l with
  | nil => simp
  | cons x xs ih =>
    simp only [List.filter_cons]
    cases hp : p x with
    | true =>
      simp only [hp, himp x hp, if_pos, List.length_cons]
      exact Nat.succ_le_succ ih
    | false =>
      cases hq : q x with
      | true =>
        simp only [hp, hq, if_pos, if_neg, Bool.false_eq_true, List.length_cons]
        exact le_trans ih (Nat.le_succ _)
      | false =>
        simpa [hp, hq] using ih

/-- Filtering with a strictly stronger predicate on a present witness keeps
    strictly fewer elements. -/
theorem filter_length_strict (p q : α → Bool) (himp : ∀ x, p x = true → q x = true)
    (a : α) (haq : q a = true) (hap : p a = false) :
    ∀ l : List α, a ∈ l → (l.filter p).length < (l.filter q).length := by
  intro l
  induction l with
  | nil => intro h; cases h
  | cons x xs ih =>
    intro hmem
    simp only [List.filter_cons]
    rcases List.mem_cons.mp hmem with heq | hmem
    · subst heq
      simp only [hap, haq, if_pos, if_neg, Bool.false_eq_true, List.length_cons]
      exact Nat.lt_succ_of_le (filter_length_mono p q himp xs)
    · cases hp : p x with
      | true =>
        simp only [hp, himp x hp, if_pos, List.length_cons]
        exact Nat.succ_lt_succ (ih hmem)
      | false =>
        cases hq : q x with
        | true =>
          simp only [hp, hq, if_pos, if_neg, Bool.false_eq_true, List.length_cons]
          exact Nat.lt_succ_of_lt (ih hmem)
        | false =>
          simpa [hp, hq] using ih hmem

/-- Growing the searched list cannot increase the number of unsearched names. -/
theorem remaining_le (u s1 s2 : List String) (hsub : ∀ x ∈ s1, x ∈ s2) :
    remaining u s2 ≤ remaining u s1 := by
  refine filter_length_mono _ _ ?_ u
  intro x hx
  simp only [decide_eq_true_eq] at hx ⊢
  intro hmem
  exact hx (hsub x hmem)

/-- Adding a fresh relevant name to the searched list strictly shrinks the
    number of unsearched names. -/
theorem remaining_lt (u s1 s2 : List String) (a : String) (hsub : ∀ x ∈ s1, x ∈ s2)
    (hau : a ∈ u) (ha1 : a ∉ s1) (ha2 : a ∈ s2) :
    remaining u s2 < remaining u s1 := by
  refine filter_length_strict _ _ ?_ a (by simpa using ha1) (by simpa using ha2) u hau
  intro x hx
  simp only [decide_eq_true_eq] at hx ⊢
  intro hmem
  exact hx (hsub x hmem)

/-- A relevant unsearched name keeps the measure positive. -/
theorem remaining_pos (u s : List String) (a : String) (hau : a ∈ u) (ha : a ∉ s) :
    1 ≤ remaining u s := by
  have hmem : a ∈ u.filter (fun n => decide (n ∉ s)) :=
    List.mem_filter.mpr ⟨hau, by simpa using ha⟩
  have := List.length_pos.mpr (List.ne_nil_of_mem hmem)
  simpa [remaining] using this

/-- With nothing searched yet, the measure is the universe size. -/
theorem remaining_nil (u : List String) : remaining u [] = u.length := by
  simp [remaining]

/-- A duplicate-free list included in another is no longer than it. -/
theorem nodup_subset_length [DecidableEq α] (l s : List α) (hnodup : l.Nodup)
    (hsub : ∀ x ∈ l, x ∈ s) : l.length ≤ s.length := by
  have h1 : l.toFinset.card = l.length := List.toFinset_card_of_nodup hnodup
  have h2 : l.toFinset ⊆ s.toFinset := by
    intro x hx
    rw [List.mem_toFinset] at hx ⊢
    exact hsub x hx
  have h3 := Finset.card_le_card h2
  have h4 := s.toFinset_card_le
  omega

/-- Parent lists of built chains are bounded by the declared parents plus
    the appended "hicolor". -/
theorem parents_length_le (w : World) (sps : List String) (n : String) :
    (IconThemes.find w sps n).parents.length ≤ (all_declared_parents w).length + 1 := by
  have := nodup_subset_length (IconThemes.find w sps n).parents
    ("hicolor" :: all_declared_parents w) (find_parents_nodup w sps n) ?_
  · simpa using this
  · intro x hx
    rcases themes_find_parents_sub w sps n x hx with h | h
    · exact h ▸ List.mem_cons_self _ _
    · exact List.mem_cons_of_mem _ h

/-- Completeness of the traversal: over any universe `u` containing
    "hicolor" and every declared parent, a fuel proportional to the number
    of not-yet-searched names makes `find_step` return a definite answer
    (the source recursion terminates), the searched list stays
    duplicate-free (each theme is visited at most once), and when the
    search fails every non-empty parent — in particular "hicolor" — has
    been visited. -/
theorem find_step_complete (w : World) (icon_name : String) (u : List String)
    (hu1 : "hicolor" ∈ u) (hu2 : ∀ x ∈ all_declared_parents w, x ∈ u) :
    ∀ (fuel : Nat) (cmd : Sum String (List String)) (st : IconLoader) (searched : List String),
      cache_ok w st →
      (∀ tn, cmd = Sum.inl tn → tn ∈ u ∧ tn ∉ searched ∧
        ((all_declared_parents w).length + 3) * remaining u searched ≤ fuel) →
      (∀ ps, cmd = Sum.inr ps → (∀ p ∈ ps, p ∈ u) ∧
        ps.length + 1 + ((all_declared_parents w).length + 3) * remaining u searched ≤ fuel) →
      ∃ out, find_step w icon_name fuel cmd st searched = some out ∧
        cache_ok w out.2.1 ∧
        out.2.1.search_paths = st.search_paths ∧
        (∃ ext, out.2.2 = searched ++ ext) ∧
        (searched.Nodup → out.2.2.Nodup) ∧
        (∀ tn, cmd = Sum.inl tn → tn ≠ "" → icon_name ≠ "" → tn ∈ out.2.2) ∧
        (out.1 = none → ∀ ps, cmd = Sum.inr ps → ∀ p ∈ ps, p ≠ "" → icon_name ≠ "" →
          p ∈ out.2.2) ∧
        (out.1 = none → ∀ tn, cmd = Sum.inl tn → tn ≠ "" → icon_name ≠ "" →
          "hicolor" ∈ out.2.2) := by
  intro fuel
  induction fuel with
  | zero =>
    intro cmd st searched hok hA hB
    exfalso
    cases cmd with
    | inl tn =>
      rcases hA tn rfl with ⟨htu, htns, hfuel⟩
      have hr := remaining_pos u searched tn htu htns
      have := Nat.mul_le_mul_left ((all_declared_parents w).length + 3) hr
      omega
    | inr ps =>
      rcases hB ps rfl with ⟨-, hfuel⟩
      omega
  | succ fuel ih =>
    intro cmd st searched hok hA hB
    cases cmd with
    | inl tn =>
      rcases hA tn rfl with ⟨htu, htns, hfuel⟩
      by_cases hemp : tn = "" ∨ icon_name = ""
      · refine ⟨(none, st, searched), ?_, hok, rfl, ⟨[], by simp⟩, fun hn => hn, ?_, ?_, ?_⟩
        · simp only [find_step]
          rw [if_pos hemp]
        · intro tn' htn' h1 h2
          injection htn' with htn'
          subst htn'
          rcases hemp with hh | hh
          · exact absurd hh h1
          · exact absurd hh h2
        · intro _ ps hps
          cases hps
        · intro _ tn' htn' h1 h2
          injection htn' with htn'
          subst htn'
          rcases hemp with hh | hh
          · exact absurd hh h1
          · exact absurd hh h2
      · obtain ⟨hts, hokA, hsp⟩ := load_themes_spec w st tn hok
        cases hfi : (st.load_themes w tn).1.find_icon w icon_name with
        | some icon =>
          refine ⟨(some icon, (st.load_themes w tn).2, searched ++ [tn]), ?_, hokA, hsp,
            ⟨[tn], rfl⟩, ?_, ?_, ?_, ?_⟩
          · simp only [find_step]
            rw [if_neg hemp]
            simp only [hfi]
          · intro hnd
            simp [List.nodup_append, hnd, htns]
          · intro tn' htn' h1 h2
            injection htn' with htn'
            subst htn'
            simp
          · intro hcon
            cases hcon
          · intro hcon
            cases hcon
        | none =>
          have hps_sub : ∀ p ∈ (st.load_themes w tn).1.parents, p ∈ u := by
            intro p hp
            rw [hts] at hp
            rcases themes_find_parents_sub w st.search_paths tn p hp with h | h
            · exact h ▸ hu1
            · exact hu2 p h
          have hlen : (st.load_themes w tn).1.parents.length ≤
              (all_declared_parents w).length + 1 := by
            rw [hts]
            exact parents_length_le w st.search_paths tn
          have hrlt : remaining u (searched ++ [tn]) < remaining u searched :=
            remaining_lt u searched (searched ++ [tn]) tn
              (fun x hx => List.mem_append_left _ hx) htu htns (by simp)
          have hfuel2 : (st.load_themes w tn).1.parents.length + 1 +
              ((all_declared_parents w).length + 3) * remaining u (searched ++ [tn]) ≤
              fuel := by
            have hmul : ((all_declared_parents w).length + 3) *
                (remaining u (searched ++ [tn]) + 1) ≤
                ((all_declared_parents w).length + 3) * remaining u searched :=
              Nat.mul_le_mul_left _ (by omega)
            rw [Nat.mul_succ] at hmul
            omega
          rcases ih (Sum.inr (st.load_themes w tn).1.parents) (st.load_themes w tn).2
              (searched ++ [tn]) hokA (by intro tn' h; cases h)
              (by
                intro ps hps
                injection hps with hps
                subst hps
                refine ⟨hps_sub, ?_⟩
                exact hfuel2) with
            ⟨out, hout, hokB, hspB, ⟨ext, hext⟩, hnd, -, hinr, -⟩
          refine ⟨out, ?_, hokB, by rw [hspB, hsp], ⟨[tn] ++ ext, by simp [hext]⟩, ?_, ?_, ?_, ?_⟩
          · simp only [find_step]
            rw [if_neg hemp]
            simp only [hfi]
            exact hout
          · intro hnodup
            refine hnd ?_
            simp [List.nodup_append, hnodup, htns]
          · intro tn' htn' h1 h2
            injection htn' with htn'
            subst htn'
            rw [hext]
            exact List.mem_append_left _ (by simp)
          · intro hr ps hps
            cases hps
          · intro hr tn' htn' h1 h2
            have hhic : "hicolor" ∈ (st.load_themes w tn).1.parents := by
              rw [hts]
              exact hicolor_mem_find_parents w st.search_paths tn
            exact hinr hr _ rfl "hicolor" hhic (by decide) h2
    | inr ps =>
      rcases hB ps rfl with ⟨hpsu, hfuel⟩
      cases ps with
      | nil =>
        refine ⟨(none, st, searched), ?_, hok, rfl, ⟨[], by simp⟩, fun hn => hn, ?_, ?_, ?_⟩
        · simp only [find_step]
        · intro tn' htn'
          cases htn'
        · intro _ ps' hps' p hp
          injection hps' with hps'
          subst hps'
          cases hp
        · intro _ tn' htn'
          cases htn'
      | cons p ps' =>
        by_cases hpmem : p ∈ searched
        · rcases ih (Sum.inr ps') st searched hok (by intro tn' h; cases h)
            (by
              intro ps2 hps2
              injection hps2 with hps2
              subst hps2
              refine ⟨fun q hq => hpsu q (List.mem_cons_of_mem _ hq), ?_⟩
              simp only [List.length_cons] at hfuel
              omega) with
            ⟨out, hout, hokB, hspB, ⟨ext, hext⟩, hnd, -, hinr, -⟩
          refine ⟨out, ?_, hokB, hspB, ⟨ext, hext⟩, hnd, ?_, ?_, ?_⟩
          · simp only [find_step]
            rw [if_pos hpmem]
            exact hout
          · intro tn' htn'
            cases htn'
          · intro hr ps2 hps2 q hq hq1 hq2
            injection hps2 with hps2
            subst hps2
            rcases List.mem_cons.mp hq with hq | hq
            · subst hq
              rw [hext]
              exact List.mem_append_left _ hpmem
            · exact hinr hr ps' rfl q hq hq1 hq2
          · intro _ tn' htn'
            cases htn'
        · rcases ih (Sum.inl p) st searched hok
            (by
              intro tn' htn'
              injection htn' with htn'
              subst htn'
              refine ⟨hpsu p (List.mem_cons_self _ _), hpmem, ?_⟩
              simp only [List.length_cons] at hfuel
              omega)
            (by intro ps2 h; cases h) with
            ⟨⟨rc, stc, sc⟩, hceq, hokC, hspC, ⟨ext1, hext1⟩, hndC, htnC, -, -⟩
          simp only at hokC hspC hext1 hndC htnC
          cases rc with
          | some icon =>
            refine ⟨(some icon, stc, sc), ?_, hokC, hspC, ⟨ext1, hext1⟩, hndC, ?_, ?_, ?_⟩
            · simp only [find_step]
              rw [if_neg hpmem]
              simp only [hceq]
            · intro tn' htn'
              cases htn'
            · intro hcon
              cases hcon
            · intro hcon
              cases hcon
          | none =>
            have hrle : remaining u sc ≤ remaining u searched :=
              remaining_le u searched sc (by
                intro x hx
                rw [hext1]
                exact List.mem_append_left _ hx)
            rcases ih (Sum.inr ps') stc sc hokC (by intro tn' h; cases h)
              (by
                intro ps2 hps2
                injection hps2 with hps2
                subst hps2
                refine ⟨fun q hq => hpsu q (List.mem_cons_of_mem _ hq), ?_⟩
                have hmul : ((all_declared_parents w).length + 3) * remaining u sc ≤
                    ((all_declared_parents w).length + 3) * remaining u searched :=
                  Nat.mul_le_mul_left _ hrle
                simp only [List.length_cons] at hfuel
                omega) with
              ⟨out, hout, hokB, hspB, ⟨ext2, hext2⟩, hnd, -, hinr, -⟩
            refine ⟨out, ?_, hokB, by rw [hspB, hspC], ⟨ext1 ++ ext2, ?_⟩, ?_, ?_, ?_, ?_⟩
            · simp only [find_step]
              rw [if_neg hpmem]
              simp only [hceq]
              exact hout
            · rw [hext2, hext1, List.append_assoc]
            · intro hnodup
              exact hnd (hndC hnodup)
            · intro tn' htn'
              cases htn'
            · intro hr ps2 hps2 q hq hq1 hq2
              injection hps2 with hps2
              subst hps2
              rcases List.mem_cons.mp hq with hq | hq
              · subst hq
                have hpsc : q ∈ sc := htnC q rfl hq1 hq2
                rw [hext2]
                exact List.mem_append_left _ hpsc
              · exact hinr hr ps' rfl q hq hq1 hq2
            · intro _ tn' htn'
              cases htn'

/-- C6: for every inheritance graph — cyclic ones included — the lookup
    recursion terminates: with fuel computed from the graph (so, for the
    actual unbounded recursion of the source, after finitely many steps) it
    returns a definite answer, each theme name is visited at most once (the
    searched list is duplicate-free), and whenever the icon is present in
    the "hicolor" chain the search succeeds, because the appended universal
    fallback is always reached. -/
theorem c6_cycle_safe_termination (w : World) (st : IconLoader)
    (theme_name icon_name : String) (hok : cache_ok w st) :
    ∃ r st1 searched1,
      find_icon_fuel w icon_name
        (((all_declared_parents w).length + 3) *
          (theme_name :: "hicolor" :: all_declared_parents w).length)
        theme_name st [] = some (r, st1, searched1) ∧
      searched1.Nodup ∧
      (theme_name ≠ "" → icon_name ≠ "" →
        (IconThemes.find w st.search_paths "hicolor").find_icon w icon_name ≠ none →
        r.isSome = true) := by
  have hu1 : "hicolor" ∈ theme_name :: "hicolor" :: all_declared_parents w := by simp
  have hu2 : ∀ x ∈ all_declared_parents w,
      x ∈ theme_name :: "hicolor" :: all_declared_parents w := by
    intro x hx
    exact List.mem_cons_of_mem _ (List.mem_cons_of_mem _ hx)
  rcases find_step_complete w icon_name (theme_name :: "hicolor" :: all_declared_parents w)
      hu1 hu2
      (((all_declared_parents w).length + 3) *
        (theme_name :: "hicolor" :: all_declared_parents w).length)
      (Sum.inl theme_name) st [] hok
      (by
        intro tn h
        injection h with h
        subst h
        refine ⟨List.mem_cons_self _ _, by simp, ?_⟩
        rw [remaining_nil])
      (by intro ps h; cases h) with
    ⟨⟨r, st1, searched1⟩, heq, -, -, -, hnodup, -, -, hhic⟩
  simp only at hnodup hhic
  refine ⟨r, st1, searched1, heq, hnodup List.nodup_nil, ?_⟩
  intro h1 h2 h3
  cases hr : r with
  | some ic => rfl
  | none =>
    exfalso
    subst hr
    have hhic2 : "hicolor" ∈ searched1 := hhic rfl theme_name rfl h1 h2
    rcases find_step_sound w icon_name
        (((all_declared_parents w).length + 3) *
          (theme_name :: "hicolor" :: all_declared_parents w).length)
        (Sum.inl theme_name) st [] _ hok heq with ⟨-, -, ext, hext, hnone, -⟩
    simp only at hext hnone
    have hvn : visited_none w st.search_paths icon_name ext := hnone (by trivial)
    rw [hext] at hhic2
    simp only [List.nil_append] at hhic2
    exact h3 (hvn "hicolor" hhic2)

/-- Directory parsed from a section with `Size=32`, used by the cyclic
    inheritance example. -/
def dirH : IconDir := ⟨"32", 32, 1, none, IconSizeType.Threshold, none, none, none⟩

/-- Theme "A" at root "r", declaring parent "B". -/
def themeA2 : IconTheme := ⟨"r/A", [dirH]⟩

/-- Theme "B" at root "r", declaring parent "A". -/
def themeB2 : IconTheme := ⟨"r/B", [dirH]⟩

/-- The "hicolor" theme at root "r". -/
def themeH2 : IconTheme := ⟨"r/hicolor", [dirH]⟩

/-- A filesystem with the mutual cycle A inherits B, B inherits A, and
    icon files present only under the "hicolor" content directory. -/
def w2 : World :=
  ⟨[(("r", "A"), (themeA2, ["B"])), (("r", "B"), (themeB2, ["A"])),
    (("r", "hicolor"), (themeH2, []))],
   fun cd _ _ _ => cd == "r/hicolor"⟩

/-- A loader configured to start at theme "A" over root "r". -/
def st2 : IconLoader := ⟨"A", "hicolor", [], [], ["r"], ThemeNameProvider.ok "A"⟩

/-- The icon found for "ic" only in "hicolor" of `w2`. -/
def icH2 : Icon :=
  ⟨"ic", "hicolor",
   [⟨dirH, ["r/hicolor", "32", "ic"], IconFileType.PNG⟩,
    ⟨dirH, ["r/hicolor", "32", "ic"], IconFileType.SVG⟩,
    ⟨dirH, ["r/hicolor", "32", "ic"], IconFileType.XPM⟩]⟩

/-- The loader state after the traversal of `w2` starting at "A". -/
def st2after : IconLoader :=
  ⟨"A", "hicolor",
   [("hicolor", ⟨"hicolor", [themeH2], ["hicolor"]⟩),
    ("B", ⟨"B", [themeB2], ["A", "hicolor"]⟩),
    ("A", ⟨"A", [themeA2], ["B", "hicolor"]⟩)],
   [], ["r"], ThemeNameProvider.ok "A"⟩

/-- Witness for C5 on the cyclic world: the icon comes from "hicolor", the
    themes "A" and "B" visited before it had no candidates, and its files
    are exactly the "hicolor" chain's candidates. -/
theorem c5_first_match_wins_witness :
    icH2.icon_name = "ic" ∧
    (IconThemes.find w2 st2.search_paths icH2.theme_name).find_icon w2 "ic" = some icH2 ∧
    icH2.files = ((IconThemes.find w2 st2.search_paths icH2.theme_name).themes.map
      (fun t => t.entries w2 "ic")).flatten ∧
    ∃ pre, (["A", "B", "hicolor"] : List String) = [] ++ pre ++ [icH2.theme_name] ∧
      ∀ n ∈ pre, (IconThemes.find w2 st2.search_paths n).find_icon w2 "ic" = none :=
  c5_first_match_wins w2 "ic" "A" 20 st2 st2after [] ["A", "B", "hicolor"] icH2
    (by intro pr hpr; cases hpr) (by decide)

/-- Witness for C6 on the cyclic world A ↔ B with the icon only in
    "hicolor": the lookup terminates and succeeds. -/
theorem c6_cycle_safe_termination_witness :
    ∃ r st1 searched1,
      find_icon_fuel w2 "ic"
        (((all_declared_parents w2).length + 3) *
          ("A" :: "hicolor" :: all_declared_parents w2).length)
        "A" st2 [] = some (r, st1, searched1) ∧
      searched1.Nodup ∧
      ("A" ≠ "" → "ic" ≠ "" →
        (IconThemes.find w2 st2.search_paths "hicolor").find_icon w2 "ic" ≠ none →
        r.isSome = true) :=
  c6_cycle_safe_termination w2 st2 "A" "ic" (by intro pr hpr; cases hpr)

end IconLoaderV
